import Mathlib

/-!
Verification of the ALU-Telemetry ghost engine (`src/ghost_manager.py`) and the
memory-instrumentation layer (`src/data_extractor.py`).

Modelling conventions:
* Python floats are modelled as exact rationals (`Rat`); Python ints as `Int`.
* A race-data frame is reduced to the two fields the ghost engine reads
  (`timer_value`, `race_completion_pct`); each is optional, as in the JSON schema
  where absent data is stored as `null`.
* Python's stable `sorted`/`list.sort` is modelled by `List.insertionSort`
  (also a stable sort, and structurally recursive so that concrete instances
  evaluate in the kernel).
* `int(x)` on a float is truncation toward zero, modelled by `truncToZero`.
-/

/-- A race-data or best-splits entry: the two fields used by the ghost engine.
Either field may be `none` (JSON `null`). -/
structure Frame where
  timer_value : Option Int
  race_completion_pct : Option Rat
  deriving DecidableEq, Repr

/-- A configured split: `{"name": str, "race_completion": float}`. -/
structure Split where
  name : String
  race_completion : Rat
  deriving DecidableEq, Repr

/-- Python `int(q)` for a float `q`: truncation toward zero. -/
def truncToZero (q : Rat) : Int :=
  if q < 0 then -(((-q).num.toNat / (-q).den : Nat) : Int)
  else ((q.num.toNat / q.den : Nat) : Int)

/-- Python `x or 0` on an `int | None` value (both `None` and `0` yield `0`). -/
def pyOrZero (o : Option Int) : Int := o.getD 0

/-- The pairs `(race_completion_pct, timer_value)` of the frames having both
fields non-null, in list order.  Both `_split_timer` and
`interpolate_ghost_timer` filter to exactly these frames and then read exactly
these two fields. -/
def validPairs (frames : List Frame) : List (Rat × Int) :=
  frames.filterMap fun f =>
    match f.race_completion_pct, f.timer_value with
    | some rp, some tv => some (rp, tv)
    | _, _ => none

/-- Translation of `GhostManager._compute_best_splits._split_timer`: timer value at `at_pct`
by linear interpolation between the last frame at-or-before and the first frame
at-or-after `at_pct` (in list order), clamping when only one side exists. -/
def split_timer (frames : List Frame) (at_pct : Rat) : Option Int :=
  let valid := validPairs frames
  let before := valid.filter fun x => decide (x.1 ≤ at_pct)
  let after := valid.filter fun x => decide (at_pct ≤ x.1)
  match before.getLast?, after.head? with
  | none, none => none
  | none, some x => some x.2
  | some x, none => some x.2
  | some x0, some x1 =>
    if x0.1 = x1.1 then some x0.2
    else some (truncToZero ((x0.2 : Rat) +
      (at_pct - x0.1) / (x1.1 - x0.1) * ((x1.2 : Rat) - (x0.2 : Rat))))

/-- Translation of `GhostManager._compute_best_splits._frames_in_region`: frames whose
non-null progress lies in the inclusive range `[start_pct, end_pct]`. -/
def frames_in_region (frames : List Frame) (start_pct end_pct : Rat) : List Frame :=
  frames.filter fun f =>
    match f.race_completion_pct with
    | some rp => decide (start_pct ≤ rp ∧ rp ≤ end_pct)
    | none => false

/-- Translation of `GhostManager._compute_best_splits._slim`: keep only frames with a non-null
timer, rebuild them as `{timer_value + timer_offset, race_completion_pct}`. -/
def slim (frames : List Frame) (timer_offset : Int) : List Frame :=
  frames.filterMap fun f =>
    match f.timer_value with
    | some tv => some ⟨some (tv + timer_offset), f.race_completion_pct⟩
    | none => none

/-- Translation of `sorted(splits, key=lambda s: s.get("race_completion", 0.0))` (stable). -/
def sortSplits (splits : List Split) : List Split :=
  splits.insertionSort fun a b => a.race_completion ≤ b.race_completion

/-- The loop of `_compute_best_splits` that turns the sorted splits into
region triples `(start_pct, end_pct, name)`, ending with the Finish region. -/
def buildBoundaries (prev : Rat) : List Split → List (Rat × Rat × String)
  | [] => [(prev, 100, "Finish")]
  | sp :: rest => (prev, sp.race_completion, sp.name) :: buildBoundaries sp.race_completion rest

/-- Region boundaries of `_compute_best_splits`: one whole-run region when no
splits are configured, otherwise the chain produced from the sorted splits. -/
def boundaries (splits : List Split) : List (Rat × Rat × String) :=
  match sortSplits splits with
  | [] => [(0, 100, "Full Run")]
  | sp :: rest => buildBoundaries 0 (sp :: rest)

/-- The body of the per-region loop of `_compute_best_splits`. -/
def regionStep (old_best new_frames : List Frame) (b : Rat × Rat × String) : List Frame :=
  let new_region := frames_in_region new_frames b.1 b.2.1
  let old_region := frames_in_region old_best b.1 b.2.1
  match split_timer new_region b.2.1 with
  | none => slim old_region 0
  | some new_time =>
    match split_timer old_region b.2.1 with
    | none => slim new_region (-(pyOrZero (split_timer new_region b.1)))
    | some old_time =>
      if new_time ≤ old_time then
        slim new_region (-(pyOrZero (split_timer new_region b.1)))
      else slim old_region 0

/-- Translation of `GhostManager._compute_best_splits`. -/
def compute_best_splits (old_best new_frames : List Frame) (splits : List Split) :
    List Frame :=
  (boundaries splits).flatMap (regionStep old_best new_frames)

/-! ### Ghost file store (`load_ghost` / `save_race_data`) -/

/-- A parsed ghost JSON document.  Each top-level key may be absent (`none`);
a present key carries its section.  Extra keys are irrelevant to the code. -/
structure GhostDoc where
  splits : Option (List Split)
  best_splits : Option (List Frame)
  race_data : Option (List Frame)
  deriving DecidableEq, Repr

/-- The content of a file on disk, by its JSON parse result: `invalid` when
`json.load` raises `json.JSONDecodeError`, otherwise the parsed document. -/
inductive FileContent where
  | invalid
  | doc (d : GhostDoc)
  deriving DecidableEq, Repr

/-- The file system: maps a path to the file content, `none` when absent. -/
def FS : Type := String → Option FileContent

/-- The exceptions `load_ghost` can raise: `FileNotFoundError`, or
`ValueError` (which `json.JSONDecodeError` subclasses). -/
inductive LoadErr where
  | notFound
  | malformed
  deriving DecidableEq, Repr

/-- Translation of `EMPTY_GHOST` as a document: all three keys present and empty. -/
def EMPTY_GHOST : GhostDoc := ⟨some [], some [], some []⟩

/-- Translation of `GhostManager.load_ghost`: `FileNotFoundError` when the path has no file;
`json.load` raising `JSONDecodeError` (a `ValueError`) on unparseable content;
`ValueError` when any of the three required keys is missing; otherwise the
parsed document is returned as-is. -/
def load_ghost (fs : FS) (filepath : String) : Except LoadErr GhostDoc :=
  match fs filepath with
  | none => .error .notFound
  | some .invalid => .error .malformed
  | some (.doc d) =>
    if d.splits.isNone then .error .malformed
    else if d.best_splits.isNone then .error .malformed
    else if d.race_data.isNone then .error .malformed
    else .ok d

/-- Translation of `GhostManager.save_race_data` as a file-system transformer: load the
existing ghost (falling back to `EMPTY_GHOST` when the file is absent or
unparseable), replace `race_data`, recompute `best_splits` from the loaded
`splits`/`best_splits` (defaulting each to `[]` via `.get`), and write the
updated document back.  Note the `splits` key is carried over as-is: if it was
absent in the loaded document it stays absent in the written one. -/
def save_race_data (fs : FS) (filepath : String) (race_frames : List Frame) : FS :=
  let ghost : GhostDoc :=
    match fs filepath with
    | some (.doc d) => d
    | some .invalid => EMPTY_GHOST
    | none => EMPTY_GHOST
  let spl := ghost.splits.getD []
  let old_best := ghost.best_splits.getD []
  let newDoc : GhostDoc :=
    { splits := ghost.splits
      best_splits := some (compute_best_splits old_best race_frames spl)
      race_data := some race_frames }
  fun p => if p = filepath then some (.doc newDoc) else fs p

/-! ### `interpolate_ghost_timer` -/

/-- The pair-scanning loop of `interpolate_ghost_timer`: find the first
consecutive pair bracketing `p` and linearly interpolate (float result, no
truncation); fall through to `None` when no pair matches. -/
def scanPairs (p : Rat) : List (Rat × Int) → Option Rat
  | x0 :: x1 :: rest =>
    if decide (x0.1 ≤ p ∧ p ≤ x1.1) then
      if x0.1 = x1.1 then some (x0.2 : Rat)
      else some ((x0.2 : Rat) + (p - x0.1) / (x1.1 - x0.1) * ((x1.2 : Rat) - (x0.2 : Rat)))
    else scanPairs p (x1 :: rest)
  | _ => none

/-- The valid entries of a best-splits list, sorted stably by progress
(`valid.sort(key=lambda e: e["race_completion_pct"])`). -/
def sortedValid (best : List Frame) : List (Rat × Int) :=
  (validPairs best).insertionSort fun a b => a.1 ≤ b.1

/-- Translation of `GhostManager.interpolate_ghost_timer` (the active ghost passed
explicitly; `none` models "no active ghost"). -/
def interpolate_ghost_timer (active : Option GhostDoc) (current_race_pct : Rat) :
    Option Rat :=
  match active with
  | none => none
  | some g =>
    let best := g.best_splits.getD []
    if best = [] then none
    else
      let valid := validPairs best
      if valid = [] then none
      else
        let sv := sortedValid best
        match sv.head?, sv.getLast? with
        | some v0, some vl =>
          if current_race_pct ≤ v0.1 then some (v0.2 : Rat)
          else if vl.1 ≤ current_race_pct then some (vl.2 : Rat)
          else scanPairs current_race_pct sv
        | _, _ => none

/-! ### Snapshot assembly (`DataExtractor.get_snapshot`) -/

/-- A telemetry value stored in a snapshot dict. -/
inductive Value where
  | vInt (n : Int)
  | vRat (q : Rat)
  | vDict
  deriving DecidableEq, Repr

/-- A snapshot: the Python dict, as an ordered association list. -/
def Snapshot : Type := List (String × Option Value)

/-- Mutable extractor state relevant to `get_snapshot`. -/
structure ExtState where
  p_race_data_slot : Option Int
  p_checkpoint_slot : Option Int
  race_data_ptr : Int
  last_timer_value : Int
  deriving DecidableEq, Repr

/-- Outcomes of the remote-memory reads attempted during one
`get_snapshot` call (`none` models the read raising and being absorbed). -/
structure MemEnv where
  race_slot_read : Option Int
  cp_slot_read : Option Int
  timer_read : Option Int
  progress_read : Option Rat
  rpm_read : Option Rat
  gear_read : Option Int
  checkpoint_read : Option Int
  deriving DecidableEq, Repr

/-- Translation of `DataExtractor._read_race_data_ptr`: 0 when no slot was injected or the
remote read fails. -/
def read_race_data_ptr (st : ExtState) (mem : MemEnv) : Int :=
  match st.p_race_data_slot with
  | none => 0
  | some _ => mem.race_slot_read.getD 0

/-- Translation of `DataExtractor._read_checkpoint_ptr`. -/
def read_checkpoint_ptr (st : ExtState) (mem : MemEnv) : Int :=
  match st.p_checkpoint_slot with
  | none => 0
  | some _ => mem.cp_slot_read.getD 0

/-- Translation of `DataExtractor._read_checkpoint`: dereference the captured pointer, `None`
when it is 0 or the read fails. -/
def read_checkpoint (st : ExtState) (mem : MemEnv) : Option Int :=
  if read_checkpoint_ptr st mem = 0 then none else mem.checkpoint_read

/-- Translation of `DataExtractor._read_velocity` (placeholder in the source: always `None`). -/
def read_velocity (_base : Int) : Option Value := none

/-- Translation of `DataExtractor._read_car_angle` (placeholder: always `None`). -/
def read_car_angle (_base : Int) : Option Value := none

/-- Translation of `DataExtractor._read_car_position` (placeholder: always `None`). -/
def read_car_position (_base : Int) : Option Value := none

/-- Translation of `DataExtractor._read_camera_angle` (placeholder: always `None`). -/
def read_camera_angle (_base : Int) : Option Value := none

/-- Translation of `DataExtractor._read_camera_position` (placeholder: always `None`). -/
def read_camera_position (_base : Int) : Option Value := none

/-- Translation of `DataExtractor._read_nitro_bar` (placeholder: always `None`). -/
def read_nitro_bar (_base : Int) : Option Value := none

/-- Translation of `DataExtractor._read_nitro_state` (placeholder: always `None`). -/
def read_nitro_state (_base : Int) : Option Value := none

/-- Translation of `DataExtractor._read_drift_state` (placeholder: always `None`). -/
def read_drift_state (_base : Int) : Option Value := none

/-- Translation of `DataExtractor._read_360_state` (placeholder: always `None`). -/
def read_360_state (_base : Int) : Option Value := none

/-- Translation of `DataExtractor._read_acceleration` (placeholder: always `None`). -/
def read_acceleration (_base : Int) : Option Value := none

/-- Translation of `DataExtractor._has_physics_update`: `False` on an unreadable timer
(state untouched), otherwise compare against and update `last_timer_value`. -/
def has_physics_update (st : ExtState) (current_timer : Option Int) :
    Bool × ExtState :=
  match current_timer with
  | none => (false, st)
  | some t => (decide (t ≠ st.last_timer_value), { st with last_timer_value := t })

/-- Assignment `snapshot[k] = v` on an existing key of the dict. -/
def setKey (snap : Snapshot) (k : String) (v : Option Value) : Snapshot :=
  snap.map fun kv => if kv.1 = k then (kv.1, v) else kv

/-- Translation of `DataExtractor.get_snapshot`: read the base pointer, always attempt timer
and progress (when the base is non-zero), and populate the full-tier fields
only when `_has_physics_update` detects a tick. -/
def get_snapshot (st : ExtState) (mem : MemEnv) : Snapshot × ExtState :=
  let base := read_race_data_ptr st mem
  let timer_value : Option Int := if base ≠ 0 then mem.timer_read else none
  let race_completion : Option Rat := if base ≠ 0 then mem.progress_read else none
  let snap0 : Snapshot :=
    [("timer_value", timer_value.map Value.vInt),
     ("race_completion_pct", race_completion.map Value.vRat),
     ("velocity", none), ("car_angle", none), ("car_position", none),
     ("camera_angle", none), ("camera_position", none), ("checkpoint", none),
     ("nitro_bar_pct", none), ("nitro_state", none), ("drift_state", none),
     ("360_state", none), ("gear", none), ("engine_rpm", none),
     ("acceleration", none)]
  let ts := has_physics_update st timer_value
  let st1 : ExtState := { ts.2 with race_data_ptr := base }
  if ts.1 then
    let s1 := setKey snap0 "velocity" (read_velocity base)
    let s2 := setKey s1 "car_angle" (read_car_angle base)
    let s3 := setKey s2 "car_position" (read_car_position base)
    let s4 := setKey s3 "camera_angle" (read_camera_angle base)
    let s5 := setKey s4 "camera_position" (read_camera_position base)
    let s6 := setKey s5 "checkpoint" ((read_checkpoint st mem).map Value.vInt)
    let s7 := setKey s6 "nitro_bar_pct" (read_nitro_bar base)
    let s8 := setKey s7 "nitro_state" (read_nitro_state base)
    let s9 := setKey s8 "drift_state" (read_drift_state base)
    let s10 := setKey s9 "360_state" (read_360_state base)
    let s11 := setKey s10 "gear" (mem.gear_read.map Value.vInt)
    let s12 := setKey s11 "engine_rpm" (mem.rpm_read.map Value.vRat)
    let s13 := setKey s12 "acceleration" (read_acceleration base)
    (s13, st1)
  else (snap0, st1)

/-- The full-tier snapshot keys: everything except `timer_value` and
`race_completion_pct`. -/
def fullTierKeys : List String :=
  ["velocity", "car_angle", "car_position", "camera_angle", "camera_position",
   "checkpoint", "nitro_bar_pct", "nitro_state", "drift_state", "360_state",
   "gear", "engine_rpm", "acceleration"]

/-! ### Trampoline injection (`_inject_pointer_capture`) -/

/-- Capabilities/results granted by the target process for the kernel32 calls
issued during injection.  `alloc_addr = 0` models `VirtualAllocEx` returning
NULL (allocation denied); the Booleans model the (unchecked) success of
`WriteProcessMemory` / `VirtualProtectEx`. -/
structure ProcCaps where
  alloc_addr : Int
  write_ok : Bool
  protect_ok : Bool
  deriving DecidableEq, Repr

/-- One operation issued against the target process, with whether it took
effect. -/
inductive TargetOp where
  | alloc (size : Nat) (result : Int)
  | write (addr : Int) (data : List Nat) (ok : Bool)
  | protect (addr : Int) (size : Nat) (ok : Bool)
  deriving DecidableEq, Repr

/-- Translation of `struct.pack("<I", n)` for `0 ≤ n < 2^32` (the source only
calls it on a value masked with `& 0xFFFF_FFFF`, so it cannot fail there). -/
def packU32LE (n : Nat) : List Nat :=
  [n % 256, n / 2 ^ 8 % 256, n / 2 ^ 16 % 256, n / 2 ^ 24 % 256]

/-- Translation of `struct.pack("<i", i)`: the two's-complement little-endian
32-bit encoding when `i` fits in int32, and `struct.error` otherwise — the
source passes `rel_jmp` / `jmp_rel` unmasked, so out-of-range displacements
raise. -/
def packI32LE (i : Int) : Except String (List Nat) :=
  if -(2 ^ 31 : Int) ≤ i ∧ i < 2 ^ 31 then
    .ok (packU32LE (i % (2 ^ 32 : Int)).toNat)
  else .error "struct.error: argument out of range"

/-- The shellcode prefix built before the back-jump is encoded: the original
bytes, `push rbx; mov rbx, rdi; mov [pData], rbx` (with the slot address
masked to 32 bits, as the source does), and `pop rbx`. -/
def trampolineShellcodeHead (pointer_slot_addr : Int)
    (original_bytes : List Nat) : List Nat :=
  original_bytes ++ [0x53, 0x48, 0x89, 0xFB, 0x48, 0x89, 0x1C, 0x25]
    ++ packU32LE (pointer_slot_addr % (2 ^ 32 : Int)).toNat ++ [0x5B]

/-- The relative displacement of the jump from the trampoline back to the
instruction after the patched site (`rel_jmp` in the source). -/
def relJmp (caps : ProcCaps) (aob_address : Int) (original_bytes : List Nat) : Int :=
  aob_address + (original_bytes.length : Int) -
    (caps.alloc_addr +
      ((trampolineShellcodeHead (caps.alloc_addr + 128 - 8) original_bytes).length : Int) + 5)

/-- The relative displacement of the jump patched over the original site
(`jmp_rel` in the source). -/
def jmpRel (caps : ProcCaps) (aob_address : Int) : Int :=
  caps.alloc_addr - (aob_address + 5)

/-- Translation of `_inject_pointer_capture`: allocate 128 RWX bytes, emit the
relocated original instruction plus the RDI-capture sequence and the jump
back, zero the 8-byte pointer slot at the tail of the allocation, patch the
original site, and return the slot address.  The only failure the code checks
for is `VirtualAllocEx` returning NULL (raised as `MemoryError`); in addition
`struct.pack("<i", ...)` raises `struct.error` when `rel_jmp` (before any
write) or `jmp_rel` (after the trampoline/slot writes and the protection
change) falls outside int32 range.  The results of `WriteProcessMemory` and
`VirtualProtectEx` are ignored.  Returns the outcome paired with the trace of
operations issued against the target process up to the failure point. -/
def inject_pointer_capture (caps : ProcCaps) (aob_address : Int)
    (original_bytes : List Nat) : Except String Int × List TargetOp :=
  let orig_len := original_bytes.length
  let trampoline_addr := caps.alloc_addr
  if trampoline_addr = 0 then
    (.error "VirtualAllocEx failed for trampoline", [TargetOp.alloc 128 0])
  else
    let pointer_slot_addr := trampoline_addr + 128 - 8
    let sc1 := trampolineShellcodeHead pointer_slot_addr original_bytes
    match packI32LE (relJmp caps aob_address original_bytes) with
    | .error e => (.error e, [TargetOp.alloc 128 trampoline_addr])
    | .ok relBytes =>
      let shellcode := sc1 ++ [0xE9] ++ relBytes
      match packI32LE (jmpRel caps aob_address) with
      | .error e =>
        (.error e,
         [TargetOp.alloc 128 trampoline_addr,
          TargetOp.write trampoline_addr shellcode caps.write_ok,
          TargetOp.write pointer_slot_addr (List.replicate 8 0) caps.write_ok,
          TargetOp.protect aob_address orig_len caps.protect_ok])
      | .ok jmpBytes =>
        let patch := [0xE9] ++ jmpBytes ++ List.replicate (orig_len - 5) 0x90
        (.ok pointer_slot_addr,
         [TargetOp.alloc 128 trampoline_addr,
          TargetOp.write trampoline_addr shellcode caps.write_ok,
          TargetOp.write pointer_slot_addr (List.replicate 8 0) caps.write_ok,
          TargetOp.protect aob_address orig_len caps.protect_ok,
          TargetOp.write aob_address patch caps.write_ok,
          TargetOp.protect aob_address orig_len caps.protect_ok])

/-! ### Claim-side descriptions and helper predicates -/

/-- Modelled from the spec's description of best-split recomputation (claim C1,
spec section 4.6): per region, if the new run's boundary timer is at most the
old one (or no old value exists) take the new region's frames re-based by the
timer at the region's start boundary, otherwise keep the old region's entries
verbatim (also when there is no new data).  To be compared with `regionStep`,
the translation of the source loop body. -/
def regionChoiceSpec (old_best new_frames : List Frame) (b : Rat × Rat × String) :
    List Frame :=
  let new_region := frames_in_region new_frames b.1 b.2.1
  let old_region := frames_in_region old_best b.1 b.2.1
  match split_timer new_region b.2.1 with
  | none => old_region
  | some new_time =>
    match split_timer old_region b.2.1 with
    | none => slim new_region (-(pyOrZero (split_timer new_region b.1)))
    | some old_time =>
      if new_time ≤ old_time then
        slim new_region (-(pyOrZero (split_timer new_region b.1)))
      else old_region

/-- The new run is strictly faster than the stored best at the end boundary of
region `b` (both boundary timers defined). -/
def fasterAtB (old_best new_frames : List Frame) (b : Rat × Rat × String) : Bool :=
  match split_timer (frames_in_region new_frames b.1 b.2.1) b.2.1,
        split_timer (frames_in_region old_best b.1 b.2.1) b.2.1 with
  | some tnew, some told => decide (tnew < told)
  | _, _ => false

/-- The new run does not beat region `b`: either it has no data there, or both
boundary timers are defined and the old one is strictly smaller. -/
def slowerAtB (old_best new_frames : List Frame) (b : Rat × Rat × String) : Bool :=
  match split_timer (frames_in_region new_frames b.1 b.2.1) b.2.1 with
  | none => true
  | some tnew =>
    match split_timer (frames_in_region old_best b.1 b.2.1) b.2.1 with
    | none => false
    | some told => decide (told < tnew)

/-- The progress of a frame, defaulting to 0 (only used on frames known to
have a non-null progress). -/
def rpv (f : Frame) : Rat := f.race_completion_pct.getD 0

/-- A schema-conforming stored best-splits entry: non-null integer timer and
non-null progress within `[0, 100]` that does not sit exactly on a configured
split boundary. -/
def wellFormedEntryB (splits : List Split) (f : Frame) : Bool :=
  match f.timer_value, f.race_completion_pct with
  | some _, some rp =>
    decide (0 ≤ rp ∧ rp ≤ 100) && splits.all fun sp => decide (rp ≠ sp.race_completion)
  | _, _ => false

/-- The frames are listed in non-decreasing progress order. -/
def sortedByRpB : List Frame → Bool
  | [] => true
  | [_] => true
  | f :: g :: t => decide (rpv f ≤ rpv g) && sortedByRpB (g :: t)

/-- A best-splits entry with both fields non-null. -/
def validEntryB (f : Frame) : Bool :=
  f.timer_value.isSome && f.race_completion_pct.isSome

/-- The assembled list decomposes along the given region list, each segment
holding only entries whose progress lies inside its region. -/
def regionsAligned : List (Rat × Rat × String) → List Frame → Prop
  | [], l => l = []
  | b :: bs, l => ∃ seg rest, l = seg ++ rest ∧
      (∀ f ∈ seg, ∃ rp, f.race_completion_pct = some rp ∧ b.1 ≤ rp ∧ rp ≤ b.2.1) ∧
      regionsAligned bs rest

/-- Whether the pre-existing file at `filepath` lets `save_race_data` write a
loadable document: absent or unparseable files are replaced by `EMPTY_GHOST`,
and parsed documents must carry the `splits` key (it is written back as-is). -/
def priorOk (fs : FS) (filepath : String) : Bool :=
  match fs filepath with
  | some (.doc d) => d.splits.isSome
  | _ => true

/-- The splits list `save_race_data` computes against for the given prior
file state. -/
def priorSplits (fs : FS) (filepath : String) : List Split :=
  match fs filepath with
  | some (.doc d) => d.splits.getD []
  | _ => []

/-- The stored best-splits list `save_race_data` computes against for the
given prior file state. -/
def priorBest (fs : FS) (filepath : String) : List Frame :=
  match fs filepath with
  | some (.doc d) => d.best_splits.getD []
  | _ => []

/-- Whether an `Except` result is a success. -/
def exceptOk : Except String Int → Bool
  | .ok _ => true
  | .error _ => false

/-- The tick decision `get_snapshot` makes, as a function of the inputs. -/
def tickDetected (st : ExtState) (mem : MemEnv) : Bool :=
  (has_physics_update st
    (if read_race_data_ptr st mem ≠ 0 then mem.timer_read else none)).1

/-- The key list of every snapshot dict produced by `get_snapshot`. -/
def snapshotKeys : List String :=
  ["timer_value", "race_completion_pct", "velocity", "car_angle", "car_position",
   "camera_angle", "camera_position", "checkpoint", "nitro_bar_pct", "nitro_state",
   "drift_state", "360_state", "gear", "engine_rpm", "acceleration"]

/-- Modelled from the spec's snapshot schema (claim C8, spec section 6): the
key set the spec asserts, with `rollover_state` in place of the source's
`360_state`. -/
def specSnapshotKeys : List String :=
  ["timer_value", "race_completion_pct", "velocity", "car_angle", "car_position",
   "camera_angle", "camera_position", "checkpoint", "nitro_bar_pct", "nitro_state",
   "drift_state", "rollover_state", "gear", "engine_rpm", "acceleration"]

/-! ### Concrete instances used by witnesses and counterexamples -/

/-- A file system whose every file is unparseable JSON. -/
def fsInvalid : FS := fun _ => some .invalid

/-- A file system holding one well-formed ghost document. -/
def fsDocOk : FS := fun _ =>
  some (.doc ⟨some [⟨"S", 50⟩], some [], some []⟩)

/-- A file system holding, at `"g.json"`, a parsed document that lacks the
`splits` key (but has the other two). -/
def fsNoSplitsKey : FS := fun p =>
  if p = "g.json" then some (.doc ⟨none, some [], some []⟩) else none

/-- An empty file system. -/
def fsEmpty : FS := fun _ => none

/-- Extractor state with an injected race-data slot, used by the C6 witness. -/
def stTick : ExtState := ⟨some 1, none, 0, -1⟩

/-- Read outcomes producing a non-zero base and a changed timer (a tick). -/
def memTick : MemEnv := ⟨some 7, none, some 5, none, none, none, none⟩

/-- A ghost whose best splits are the canonical two-region store of the C2
scenario, used by the C4 witness. -/
def ghostC4 : GhostDoc :=
  ⟨some [⟨"Split 1", 50⟩],
   some [⟨some 0, some 0⟩, ⟨some 1000, some 50⟩, ⟨some 0, some 50⟩, ⟨some 1200, some 100⟩],
   some []⟩

/-- C1 witness inputs. -/
def oldC1 : List Frame := [⟨some 0, some 0⟩, ⟨some 1000, some 40⟩]

/-- C1 witness inputs. -/
def newC1 : List Frame := [⟨some 0, some 0⟩, ⟨some 900, some 40⟩]

/-- One split at 50 %, shared by several witnesses. -/
def splits50 : List Split := [⟨"Split 1", 50⟩]

/-- C3 witness: stored best that a strictly faster run replaces. -/
def oldFast : List Frame := [⟨some 0, some 0⟩, ⟨some 1000, some 40⟩, ⟨some 2200, some 100⟩]

/-- C3 witness: a run strictly faster at both region boundaries. -/
def newFast : List Frame := [⟨some 0, some 0⟩, ⟨some 900, some 40⟩, ⟨some 2000, some 100⟩]

/-- C3 witness: a well-formed sorted store with no entry on a boundary. -/
def oldSlow : List Frame := [⟨some 0, some 0⟩, ⟨some 10, some 40⟩, ⟨some 20, some 100⟩]

/-- C3 witness: a run strictly slower at both region boundaries. -/
def newSlow : List Frame := [⟨some 100, some 0⟩, ⟨some 200, some 40⟩, ⟨some 300, some 100⟩]

/-! ### Theorems -/

/-- Claim C2 (code bug evidence): on the spec's own scenario — one split at
50 %, stored best with re-based region timers 0..1000 (progress 0..50) and
0..1200 (progress 50..100), new run 0..900 / 900..2200 — the code does NOT
replace region 1 even though 900 < 1000.  Because `_frames_in_region` is
inclusive at both ends, region 2's re-based start entry `{0, 50}` leaks into
region 1, the old boundary timer interpolates to 0, and both regions are kept
(with the boundary entries duplicated).  The expected result per the spec,
`[{0,0},{900,50},{0,50},{1200,100}]` (total 900+1200), is not produced. -/
theorem c2_scenario_code_bug :
    compute_best_splits
      [⟨some 0, some 0⟩, ⟨some 1000, some 50⟩, ⟨some 0, some 50⟩, ⟨some 1200, some 100⟩]
      [⟨some 0, some 0⟩, ⟨some 900, some 50⟩, ⟨some 2200, some 100⟩]
      [⟨"Split 1", 50⟩] =
    [⟨some 0, some 0⟩, ⟨some 1000, some 50⟩, ⟨some 0, some 50⟩,
     ⟨some 1000, some 50⟩, ⟨some 0, some 50⟩, ⟨some 1200, some 100⟩] ∧
    compute_best_splits
      [⟨some 0, some 0⟩, ⟨some 1000, some 50⟩, ⟨some 0, some 50⟩, ⟨some 1200, some 100⟩]
      [⟨some 0, some 0⟩, ⟨some 900, some 50⟩, ⟨some 2200, some 100⟩]
      [⟨"Split 1", 50⟩] ≠
    [⟨some 0, some 0⟩, ⟨some 900, some 50⟩, ⟨some 0, some 50⟩, ⟨some 1200, some 100⟩] := by
  constructor
  · decide
  · decide

/-- Claim C7 (amended): `load_ghost` raises `FileNotFoundError` exactly when no
file exists; it raises `ValueError` exactly when the file exists but fails to
parse as JSON (`json.JSONDecodeError` is a `ValueError`) or parses with one of
the three required keys missing; otherwise it returns the parsed document
as-is, never substituting a default ghost. -/
theorem c7_load_ghost_exact_errors (fs : FS) (filepath : String) :
    (load_ghost fs filepath = .error .notFound ↔ fs filepath = none) ∧
    (load_ghost fs filepath = .error .malformed ↔
      (fs filepath = some .invalid ∨ ∃ d, fs filepath = some (.doc d) ∧
        (d.splits = none ∨ d.best_splits = none ∨ d.race_data = none))) ∧
    (∀ d, fs filepath = some (.doc d) → d.splits ≠ none → d.best_splits ≠ none →
      d.race_data ≠ none → load_ghost fs filepath = .ok d) := by
  refine ⟨?_, ?_, ?_⟩
  · cases h : fs filepath with
    | none => simp [load_ghost, h]
    | some c =>
      cases c with
      | invalid => simp [load_ghost, h]
      | doc d =>
        obtain ⟨s, b, r⟩ := d
        cases s <;> cases b <;> cases r <;> simp [load_ghost, h]
  · cases h : fs filepath with
    | none => simp [load_ghost, h]
    | some c =>
      cases c with
      | invalid => simp [load_ghost, h]
      | doc d =>
        obtain ⟨s, b, r⟩ := d
        cases s <;> cases b <;> cases r <;> simp [load_ghost, h]
  · intro d hd hs hb hr
    obtain ⟨s, b, r⟩ := d
    cases s with
    | none => exact absurd rfl hs
    | some s =>
      cases b with
      | none => exact absurd rfl hb
      | some b =>
        cases r with
        | none => exact absurd rfl hr
        | some r => simp [load_ghost, hd]

/-- Claim C7 (counterexample): on a file that exists but is not parseable
JSON, `load_ghost` raises `ValueError` (via `json.JSONDecodeError`) even
though the file does not parse — refuting "raises ValueError exactly when the
file parses but a required key is absent". -/
theorem c7_counterexample :
    load_ghost fsInvalid "ghost.json" = .error .malformed ∧
    ¬(load_ghost fsInvalid "ghost.json" = .error .malformed ↔
       ∃ d, fsInvalid "ghost.json" = some (.doc d) ∧
         (d.splits = none ∨ d.best_splits = none ∨ d.race_data = none)) := by
  refine ⟨rfl, fun h => ?_⟩
  obtain ⟨d, hd, _⟩ := h.mp rfl
  exact absurd hd (by simp [fsInvalid])

/-- Claim C7 (witness): the amended theorem applied to a concrete well-formed
file, yielding the stored document unchanged. -/
theorem c7_witness :
    load_ghost fsDocOk "g.json" = .ok ⟨some [⟨"S", 50⟩], some [], some []⟩ :=
  (c7_load_ghost_exact_errors fsDocOk "g.json").2.2 _ rfl
    (by simp) (by simp) (by simp)

/-- Claim C10: when the file at `filepath` exists but cannot be read or parsed
as JSON, `save_race_data` does not surface the corruption: it reinitializes to
`EMPTY_GHOST` and overwrites the file with the new run's data computed against
that empty ghost (empty splits, best splits recomputed from an empty store),
leaving every other path untouched. -/
theorem c10_save_over_corrupt (fs : FS) (filepath : String) (frames : List Frame)
    (h : fs filepath = some .invalid) :
    save_race_data fs filepath frames filepath =
      some (.doc ⟨some [], some (compute_best_splits [] frames []), some frames⟩) ∧
    ∀ p, p ≠ filepath → save_race_data fs filepath frames p = fs p := by
  constructor
  · simp [save_race_data, h, EMPTY_GHOST]
  · intro p hp
    simp [save_race_data, hp]

/-- Claim C10 (witness): the theorem applied to a concrete corrupt file. -/
theorem c10_witness :
    save_race_data fsInvalid "g.json" [⟨some 5, some 10⟩] "g.json" =
      some (.doc ⟨some [],
        some (compute_best_splits [] [⟨some 5, some 10⟩] []),
        some [⟨some 5, some 10⟩]⟩) ∧
    ∀ p, p ≠ "g.json" →
      save_race_data fsInvalid "g.json" [⟨some 5, some 10⟩] p = fsInvalid p :=
  c10_save_over_corrupt fsInvalid "g.json" [⟨some 5, some 10⟩] rfl

/-- Claim C9 (amended): `_inject_pointer_capture` fails with `MemoryError`
(the code's realisation of `InjectionError`) exactly when the target process
denies the trampoline allocation, and with `struct.error` when either 32-bit
relative displacement — trampoline-to-return (`rel_jmp`, raised before any
write is issued) or site-to-trampoline (`jmp_rel`, raised after the
trampoline and slot writes and the protection change) — falls outside int32
range; the results of `WriteProcessMemory` and `VirtualProtectEx` are never
checked, so write/protection denials do not cause a failure.  On success
(allocation granted, both displacements encodable) it returns the address of
the 8-byte pointer slot (the last 8 bytes of the 128-byte allocation) and
issues the zero-initialising 8-byte write to that slot, which takes effect
only if writes are permitted. -/
theorem c9_inject_alloc_only (caps : ProcCaps) (aob_address : Int)
    (original_bytes : List Nat) :
    (caps.alloc_addr = 0 →
      (inject_pointer_capture caps aob_address original_bytes).1 =
        .error "VirtualAllocEx failed for trampoline") ∧
    (caps.alloc_addr ≠ 0 →
      ∀ e, packI32LE (relJmp caps aob_address original_bytes) = .error e →
        (inject_pointer_capture caps aob_address original_bytes).1 = .error e ∧
        (inject_pointer_capture caps aob_address original_bytes).2 =
          [TargetOp.alloc 128 caps.alloc_addr]) ∧
    (caps.alloc_addr ≠ 0 →
      ∀ relBytes e,
        packI32LE (relJmp caps aob_address original_bytes) = .ok relBytes →
        packI32LE (jmpRel caps aob_address) = .error e →
        (inject_pointer_capture caps aob_address original_bytes).1 = .error e) ∧
    (caps.alloc_addr ≠ 0 →
      ∀ relBytes jmpBytes,
        packI32LE (relJmp caps aob_address original_bytes) = .ok relBytes →
        packI32LE (jmpRel caps aob_address) = .ok jmpBytes →
        (inject_pointer_capture caps aob_address original_bytes).1 =
          .ok (caps.alloc_addr + 128 - 8) ∧
        TargetOp.write (caps.alloc_addr + 128 - 8) (List.replicate 8 0)
          caps.write_ok ∈
          (inject_pointer_capture caps aob_address original_bytes).2) := by
  refine ⟨?_, ?_, ?_, ?_⟩
  · intro h
    simp [inject_pointer_capture, h]
  · intro h e he
    simp only [inject_pointer_capture]
    rw [if_neg h, he]
    exact ⟨rfl, rfl⟩
  · intro h relBytes e hrel hjmp
    simp only [inject_pointer_capture]
    rw [if_neg h, hrel, hjmp]
  · intro h relBytes jmpBytes hrel hjmp
    simp only [inject_pointer_capture]
    rw [if_neg h, hrel, hjmp]
    exact ⟨rfl, by simp⟩

/-- Claim C9 (counterexample): with the allocation granted nearby (both
displacements in int32 range) but every write and protection change denied,
injection still reports success — refuting "fails with an InjectionError if
the target process denies memory allocation, write, or protection-change
operations". -/
theorem c9_counterexample :
    (⟨4096, false, false⟩ : ProcCaps).write_ok = false ∧
    (⟨4096, false, false⟩ : ProcCaps).protect_ok = false ∧
    exceptOk (inject_pointer_capture ⟨4096, false, false⟩ 1000
      [0x48, 0x01, 0x87, 0xA0, 0x00, 0x00, 0x00]).1 = true := by
  refine ⟨rfl, rfl, ?_⟩
  decide

/-- Claim C9 (witness): the amended theorem applied to a denied allocation, to
an allocation 2^40 bytes away (whose back-jump displacement overflows int32,
so `struct.pack` raises before any write), and to a nearby granted one. -/
theorem c9_witness :
    (inject_pointer_capture ⟨0, true, true⟩ 1000 [0x48, 0x01, 0x87]).1 =
      .error "VirtualAllocEx failed for trampoline" ∧
    ((inject_pointer_capture ⟨2 ^ 40, true, true⟩ 1000 [0x48, 0x01, 0x87]).1 =
        .error "struct.error: argument out of range" ∧
     (inject_pointer_capture ⟨2 ^ 40, true, true⟩ 1000 [0x48, 0x01, 0x87]).2 =
        [TargetOp.alloc 128 ((⟨2 ^ 40, true, true⟩ : ProcCaps).alloc_addr)]) ∧
    ((inject_pointer_capture ⟨4096, true, true⟩ 1000 [0x48, 0x01, 0x87]).1 =
        .ok ((4096 : Int) + 128 - 8) ∧
     TargetOp.write ((4096 : Int) + 128 - 8) (List.replicate 8 0) true ∈
        (inject_pointer_capture ⟨4096, true, true⟩ 1000 [0x48, 0x01, 0x87]).2) :=
  ⟨(c9_inject_alloc_only ⟨0, true, true⟩ 1000 [0x48, 0x01, 0x87]).1 rfl,
   (c9_inject_alloc_only ⟨2 ^ 40, true, true⟩ 1000 [0x48, 0x01, 0x87]).2.1
     (by decide) "struct.error: argument out of range" rfl,
   (c9_inject_alloc_only ⟨4096, true, true⟩ 1000 [0x48, 0x01, 0x87]).2.2.2
     (by decide) _ _ rfl rfl⟩

/-- Every `setKey` assignment updates values in place and leaves the dict's
key list unchanged. -/
theorem setKey_keys (l : Snapshot) (k : String) (v : Option Value) :
    (setKey l k v).map Prod.fst = l.map Prod.fst := by
  induction l with
  | nil => rfl
  | cons kv t ih =>
    simp only [setKey, List.map_cons] at ih ⊢
    by_cases h : kv.1 = k <;> simp [h, ih]

/-- Claim C8 (amended): every snapshot returned by `get_snapshot` is a mapping
whose key list is exactly `timer_value, race_completion_pct, velocity,
car_angle, car_position, camera_angle, camera_position, checkpoint,
nitro_bar_pct, nitro_state, drift_state, 360_state, gear, engine_rpm,
acceleration` (the source uses `360_state` where the spec wrote
`rollover_state`), with every value optional and independently nullable. -/
theorem c8_snapshot_keys (st : ExtState) (mem : MemEnv) :
    ((get_snapshot st mem).1).map Prod.fst = snapshotKeys := by
  simp only [get_snapshot]
  split <;> split <;> simp [setKey_keys, snapshotKeys]

/-- Claim C8 (counterexample): the claimed key set contains `rollover_state`,
but no snapshot produced by `get_snapshot` has such a key (the source key is
`360_state`). -/
theorem c8_counterexample :
    "rollover_state" ∈ specSnapshotKeys ∧
    ¬("rollover_state" ∈
      ((get_snapshot ⟨none, none, 0, -1⟩
        ⟨none, none, none, none, none, none, none⟩).1).map Prod.fst) := by
  constructor
  · decide
  · decide

/-- Unfolding `setKey` over a cons cell. -/
theorem setKey_cons (k2 : String) (v : Option Value) (kv : String × Option Value)
    (t : List (String × Option Value)) :
    setKey (kv :: t) k2 v = (if kv.1 = k2 then (kv.1, v) else kv) :: setKey t k2 v := rfl

/-- Assigning one key leaves lookups of other keys unchanged. -/
theorem lookup_setKey_ne (k1 k2 : String) (v : Option Value) (h : k1 ≠ k2)
    (l : Snapshot) : (setKey l k2 v).lookup k1 = l.lookup k1 := by
  induction l with
  | nil => rfl
  | cons kv t ih =>
    obtain ⟨k, w⟩ := kv
    rw [setKey_cons]
    by_cases hk : k = k2
    · rw [if_pos hk, List.lookup_cons, List.lookup_cons]
      have hb : (k1 == k) = false := by subst hk; simp [h]
      rw [hb]
      exact ih
    · rw [if_neg hk, List.lookup_cons, List.lookup_cons]
      cases hbeq : k1 == k
      · exact ih
      · rfl

/-- Assigning a key makes lookups of that key return the new value (when the
key is present). -/
theorem lookup_setKey_eq (k : String) (v : Option Value) (l : Snapshot) :
    (setKey l k v).lookup k = (l.lookup k).map fun _ => v := by
  induction l with
  | nil => rfl
  | cons kv t ih =>
    obtain ⟨k2, w⟩ := kv
    rw [setKey_cons]
    by_cases hk : k2 = k
    · rw [if_pos hk, List.lookup_cons, List.lookup_cons]
      subst hk
      rw [beq_self_eq_true]
      rfl
    · rw [if_neg hk, List.lookup_cons, List.lookup_cons]
      have hb : (k == k2) = false := by simp [Ne.symm hk]
      rw [hb]
      exact ih

/-- Claim C6: `get_snapshot` never returns partial full-tier data.  When no
physics tick is detected (timer unchanged or unreadable), every full-tier
field is `None`; when a tick is detected, every full-tier field is set to its
reader's result — all of them attempted, never a mix attributable to the tick
gate. -/
theorem c6_tick_gate (st : ExtState) (mem : MemEnv) :
    (tickDetected st mem = false →
      ∀ k ∈ fullTierKeys, ((get_snapshot st mem).1).lookup k = some none) ∧
    (tickDetected st mem = true →
      ((get_snapshot st mem).1).lookup "velocity" =
        some (read_velocity (read_race_data_ptr st mem)) ∧
      ((get_snapshot st mem).1).lookup "car_angle" =
        some (read_car_angle (read_race_data_ptr st mem)) ∧
      ((get_snapshot st mem).1).lookup "car_position" =
        some (read_car_position (read_race_data_ptr st mem)) ∧
      ((get_snapshot st mem).1).lookup "camera_angle" =
        some (read_camera_angle (read_race_data_ptr st mem)) ∧
      ((get_snapshot st mem).1).lookup "camera_position" =
        some (read_camera_position (read_race_data_ptr st mem)) ∧
      ((get_snapshot st mem).1).lookup "checkpoint" =
        some ((read_checkpoint st mem).map Value.vInt) ∧
      ((get_snapshot st mem).1).lookup "nitro_bar_pct" =
        some (read_nitro_bar (read_race_data_ptr st mem)) ∧
      ((get_snapshot st mem).1).lookup "nitro_state" =
        some (read_nitro_state (read_race_data_ptr st mem)) ∧
      ((get_snapshot st mem).1).lookup "drift_state" =
        some (read_drift_state (read_race_data_ptr st mem)) ∧
      ((get_snapshot st mem).1).lookup "360_state" =
        some (read_360_state (read_race_data_ptr st mem)) ∧
      ((get_snapshot st mem).1).lookup "gear" =
        some (mem.gear_read.map Value.vInt) ∧
      ((get_snapshot st mem).1).lookup "engine_rpm" =
        some (mem.rpm_read.map Value.vRat) ∧
      ((get_snapshot st mem).1).lookup "acceleration" =
        some (read_acceleration (read_race_data_ptr st mem))) := by
  constructor
  · intro h k hk
    unfold tickDetected at h
    simp only [get_snapshot, h]
    fin_cases hk <;> rfl
  · intro h
    unfold tickDetected at h
    simp only [get_snapshot, h]
    simp [lookup_setKey_ne, lookup_setKey_eq, List.lookup_cons]

/-- Claim C6 (witness): the theorem applied to a concrete tick-detecting
input. -/
theorem c6_witness :
    tickDetected stTick memTick = true ∧
    (((get_snapshot stTick memTick).1).lookup "velocity" =
        some (read_velocity (read_race_data_ptr stTick memTick)) ∧
      ((get_snapshot stTick memTick).1).lookup "car_angle" =
        some (read_car_angle (read_race_data_ptr stTick memTick)) ∧
      ((get_snapshot stTick memTick).1).lookup "car_position" =
        some (read_car_position (read_race_data_ptr stTick memTick)) ∧
      ((get_snapshot stTick memTick).1).lookup "camera_angle" =
        some (read_camera_angle (read_race_data_ptr stTick memTick)) ∧
      ((get_snapshot stTick memTick).1).lookup "camera_position" =
        some (read_camera_position (read_race_data_ptr stTick memTick)) ∧
      ((get_snapshot stTick memTick).1).lookup "checkpoint" =
        some ((read_checkpoint stTick memTick).map Value.vInt) ∧
      ((get_snapshot stTick memTick).1).lookup "nitro_bar_pct" =
        some (read_nitro_bar (read_race_data_ptr stTick memTick)) ∧
      ((get_snapshot stTick memTick).1).lookup "nitro_state" =
        some (read_nitro_state (read_race_data_ptr stTick memTick)) ∧
      ((get_snapshot stTick memTick).1).lookup "drift_state" =
        some (read_drift_state (read_race_data_ptr stTick memTick)) ∧
      ((get_snapshot stTick memTick).1).lookup "360_state" =
        some (read_360_state (read_race_data_ptr stTick memTick)) ∧
      ((get_snapshot stTick memTick).1).lookup "gear" =
        some (memTick.gear_read.map Value.vInt) ∧
      ((get_snapshot stTick memTick).1).lookup "engine_rpm" =
        some (memTick.rpm_read.map Value.vRat) ∧
      ((get_snapshot stTick memTick).1).lookup "acceleration" =
        some (read_acceleration (read_race_data_ptr stTick memTick))) :=
  ⟨by decide, (c6_tick_gate stTick memTick).2 (by decide)⟩

/-- Every entry produced by `_slim` applied to a region filter carries a
non-null progress lying inside that region. -/
theorem mem_slim_region (l : List Frame) (s e : Rat) (off : Int) :
    ∀ f ∈ slim (frames_in_region l s e) off,
      ∃ rp, f.race_completion_pct = some rp ∧ s ≤ rp ∧ rp ≤ e := by
  intro f hf
  simp only [slim, List.mem_filterMap] at hf
  obtain ⟨g, hg, hfg⟩ := hf
  simp only [frames_in_region, List.mem_filter] at hg
  obtain ⟨-, hpred⟩ := hg
  cases hrp : g.race_completion_pct with
  | none => rw [hrp] at hpred; simp at hpred
  | some rp =>
    rw [hrp] at hpred
    have hle := of_decide_eq_true hpred
    cases htv : g.timer_value with
    | none => rw [htv] at hfg; simp at hfg
    | some tv =>
      rw [htv] at hfg
      simp only [Option.some.injEq] at hfg
      refine ⟨rp, ?_, hle.1, hle.2⟩
      rw [← hfg, hrp]

/-- Every frame emitted by the per-region loop body lies (by progress) inside
its region. -/
theorem regionStep_mem_region (old_best new_frames : List Frame)
    (b : Rat × Rat × String) :
    ∀ f ∈ regionStep old_best new_frames b,
      ∃ rp, f.race_completion_pct = some rp ∧ b.1 ≤ rp ∧ rp ≤ b.2.1 := by
  intro f hf
  simp only [regionStep] at hf
  rcases h1 : split_timer (frames_in_region new_frames b.1 b.2.1) b.2.1 with _ | tn <;>
    simp only [h1] at hf
  · exact mem_slim_region _ _ _ _ f hf
  · rcases h2 : split_timer (frames_in_region old_best b.1 b.2.1) b.2.1 with _ | told <;>
      simp only [h2] at hf
    · exact mem_slim_region _ _ _ _ f hf
    · by_cases hle : tn ≤ told
      · rw [if_pos hle] at hf
        exact mem_slim_region _ _ _ _ f hf
      · rw [if_neg hle] at hf
        exact mem_slim_region _ _ _ _ f hf

/-- A flat map whose pieces stay in their regions is region-aligned. -/
theorem flatMap_regionsAligned (g : Rat × Rat × String → List Frame) :
    ∀ bs : List (Rat × Rat × String),
      (∀ b ∈ bs, ∀ f ∈ g b, ∃ rp, f.race_completion_pct = some rp ∧
        b.1 ≤ rp ∧ rp ≤ b.2.1) →
      regionsAligned bs (bs.flatMap g) := by
  intro bs
  induction bs with
  | nil => intro _; rfl
  | cons b rest ih =>
    intro h
    exact ⟨g b, rest.flatMap g, by simp, h b (by simp),
      ih fun b2 hb2 => h b2 (by simp [hb2])⟩

/-- The recomputed best splits decompose along the configured region
boundaries. -/
theorem compute_best_splits_aligned (old_best new_frames : List Frame)
    (splits : List Split) :
    regionsAligned (boundaries splits)
      (compute_best_splits old_best new_frames splits) :=
  flatMap_regionsAligned _ _ fun b _ => regionStep_mem_region old_best new_frames b

/-- Claim C5 (amended): provided the pre-existing file at the path is absent,
unparseable, or a parsed document that carries the `splits` key,
`save_race_data` followed by `load_ghost` yields a document whose `race_data`
equals the saved frames and whose `best_splits` is the recomputation against
the prior store — a concatenation of per-region segments aligned with the
configured split boundaries. -/
theorem c5_save_load_round_trip (fs : FS) (filepath : String)
    (frames : List Frame) (h : priorOk fs filepath = true) :
    load_ghost (save_race_data fs filepath frames) filepath =
      .ok ⟨some (priorSplits fs filepath),
           some (compute_best_splits (priorBest fs filepath) frames
             (priorSplits fs filepath)),
           some frames⟩ ∧
    regionsAligned (boundaries (priorSplits fs filepath))
      (compute_best_splits (priorBest fs filepath) frames
        (priorSplits fs filepath)) := by
  refine ⟨?_, compute_best_splits_aligned _ _ _⟩
  unfold priorOk at h
  rcases hfs : fs filepath with _ | c
  · simp [load_ghost, save_race_data, priorSplits, priorBest, hfs, EMPTY_GHOST]
  · cases c with
    | invalid => simp [load_ghost, save_race_data, priorSplits, priorBest, hfs, EMPTY_GHOST]
    | doc d =>
      rw [hfs] at h
      obtain ⟨s, hs⟩ := Option.isSome_iff_exists.mp h
      simp [load_ghost, save_race_data, priorSplits, priorBest, hfs, hs]

/-- Claim C5 (counterexample): if the pre-existing file parses but lacks the
`splits` key, `save_race_data` succeeds yet writes the document back without
that key, so the subsequent `load_ghost` raises `ValueError` instead of
yielding the saved ghost — refuting the unconditional round-trip. -/
theorem c5_counterexample :
    load_ghost (save_race_data fsNoSplitsKey "g.json" [⟨some 5, some 10⟩])
      "g.json" = .error .malformed := by
  rfl

/-- Claim C5 (witness): the amended theorem applied to a fresh path. -/
theorem c5_witness :
    priorOk fsEmpty "g.json" = true ∧
    (load_ghost (save_race_data fsEmpty "g.json" [⟨some 5, some 10⟩]) "g.json" =
      .ok ⟨some (priorSplits fsEmpty "g.json"),
           some (compute_best_splits (priorBest fsEmpty "g.json")
             [⟨some 5, some 10⟩] (priorSplits fsEmpty "g.json")),
           some [⟨some 5, some 10⟩]⟩ ∧
     regionsAligned (boundaries (priorSplits fsEmpty "g.json"))
       (compute_best_splits (priorBest fsEmpty "g.json") [⟨some 5, some 10⟩]
         (priorSplits fsEmpty "g.json"))) :=
  ⟨rfl, c5_save_load_round_trip fsEmpty "g.json" [⟨some 5, some 10⟩] rfl⟩

/-- Flat maps agree when the functions agree on every element. -/
theorem flatMap_congr_mem {α β : Type} (l : List α) (f g : α → List β)
    (h : ∀ a ∈ l, f a = g a) : l.flatMap f = l.flatMap g := by
  induction l with
  | nil => rfl
  | cons a t ih =>
    simp only [List.flatMap_cons]
    rw [h a (by simp), ih fun a2 ha2 => h a2 (by simp [ha2])]

/-- Applying `_slim` with offset 0 is the identity on lists whose frames all carry a
timer value. -/
theorem slim_zero (l : List Frame) (h : ∀ f ∈ l, f.timer_value.isSome = true) :
    slim l 0 = l := by
  induction l with
  | nil => rfl
  | cons f t ih =>
    have hmem := h f (by simp)
    obtain ⟨ftv, frp⟩ := f
    obtain ⟨tv, rfl⟩ := Option.isSome_iff_exists.mp hmem
    have ht : slim t 0 = t := ih fun g hg => h g (by simp [hg])
    show (⟨some (tv + 0), frp⟩ : Frame) :: slim t 0 = ⟨some tv, frp⟩ :: t
    rw [Int.add_zero, ht]

/-- The region loop always emits at least one region. -/
theorem buildBoundaries_ne_nil (prev : Rat) (ss : List Split) :
    buildBoundaries prev ss ≠ [] := by
  cases ss <;> simp [buildBoundaries]

/-- The first region starts at the running start value. -/
theorem buildBoundaries_head (prev : Rat) (ss : List Split) :
    (buildBoundaries prev ss).head?.map Prod.fst = some prev := by
  cases ss <;> simp [buildBoundaries]

/-- The last region always ends at 100. -/
theorem buildBoundaries_last (prev : Rat) (ss : List Split) :
    ((buildBoundaries prev ss).getLast?.map fun b => b.2.1) = some 100 := by
  induction ss generalizing prev with
  | nil => simp [buildBoundaries]
  | cons sp rest ih =>
    rw [buildBoundaries]
    cases hb : buildBoundaries sp.race_completion rest with
    | nil => exact absurd hb (buildBoundaries_ne_nil _ _)
    | cons x xs =>
      rw [List.getLast?_cons_cons]
      have hl := ih sp.race_completion
      rw [hb] at hl
      exact hl

/-- Consecutive regions share their boundary: each region ends where the next
starts. -/
theorem buildBoundaries_chain (prev : Rat) (ss : List Split) :
    (buildBoundaries prev ss).Chain' (fun a b => a.2.1 = b.1) := by
  induction ss generalizing prev with
  | nil => simp [buildBoundaries]
  | cons sp rest ih =>
    rw [buildBoundaries, List.chain'_cons']
    refine ⟨?_, ih sp.race_completion⟩
    intro b hb
    have hh := buildBoundaries_head sp.race_completion rest
    rw [hb] at hh
    simp at hh
    exact hh.symm

/-- The boundaries of any configured splits list form a non-empty contiguous
chain from 0 to 100. -/
theorem boundaries_facts (splits : List Split) :
    boundaries splits ≠ [] ∧
    (boundaries splits).head?.map Prod.fst = some 0 ∧
    ((boundaries splits).getLast?.map fun b => b.2.1) = some 100 ∧
    (boundaries splits).Chain' (fun a b => a.2.1 = b.1) := by
  unfold boundaries
  cases h : sortSplits splits with
  | nil => exact ⟨List.cons_ne_nil _ _, rfl, rfl, List.chain'_singleton _⟩
  | cons sp rest =>
    exact ⟨buildBoundaries_ne_nil _ _, buildBoundaries_head _ _,
      buildBoundaries_last _ _, buildBoundaries_chain _ _⟩

/-- When every stored best-splits entry carries a timer, the source's region
step coincides with the spec's description (old region kept verbatim). -/
theorem regionStep_eq_regionChoiceSpec (old_best new_frames : List Frame)
    (h : ∀ f ∈ old_best, f.timer_value.isSome = true) (b : Rat × Rat × String) :
    regionStep old_best new_frames b = regionChoiceSpec old_best new_frames b := by
  have hold : ∀ f ∈ frames_in_region old_best b.1 b.2.1, f.timer_value.isSome = true :=
    fun f hf => h f (List.mem_filter.mp hf).1
  simp only [regionStep, regionChoiceSpec]
  rcases h1 : split_timer (frames_in_region new_frames b.1 b.2.1) b.2.1 with _ | tn <;>
    simp only [h1]
  · exact slim_zero _ hold
  · rcases h2 : split_timer (frames_in_region old_best b.1 b.2.1) b.2.1 with _ | told
    · simp only [h2]
    · simp only [h2]
      split_ifs with hle
      · rfl
      · exact slim_zero _ hold

/-- Claim C1: for every stored best-splits list (whose entries, as the program
writes them, all carry a timer value), every new-run frame list and every
configured splits list, `_compute_best_splits` partitions `[0,100]` into a
contiguous chain of regions from the sorted split boundaries (a single
whole-run region when none are configured) and assembles, independently per
region, exactly the spec's choice: the new region's frames re-based by the
start-boundary timer when the new end-boundary timer is at most the old one or
no old value exists, the old region's entries verbatim otherwise, and the old
region verbatim when the new run has no data there. -/
theorem c1_best_split_recomputation (old_best new_frames : List Frame)
    (splits : List Split) (h : ∀ f ∈ old_best, f.timer_value.isSome = true) :
    (boundaries splits ≠ [] ∧
     (boundaries splits).head?.map Prod.fst = some 0 ∧
     ((boundaries splits).getLast?.map fun b => b.2.1) = some 100 ∧
     (boundaries splits).Chain' (fun a b => a.2.1 = b.1)) ∧
    compute_best_splits old_best new_frames splits =
      (boundaries splits).flatMap (regionChoiceSpec old_best new_frames) :=
  ⟨boundaries_facts splits,
   flatMap_congr_mem _ _ _ fun b _ =>
     regionStep_eq_regionChoiceSpec old_best new_frames h b⟩

/-- Claim C1 (witness): the theorem applied to a concrete store and run. -/
theorem c1_witness :
    (∀ f ∈ oldC1, f.timer_value.isSome = true) ∧
    ((boundaries splits50 ≠ [] ∧
      (boundaries splits50).head?.map Prod.fst = some 0 ∧
      ((boundaries splits50).getLast?.map fun b => b.2.1) = some 100 ∧
      (boundaries splits50).Chain' (fun a b => a.2.1 = b.1)) ∧
     compute_best_splits oldC1 newC1 splits50 =
       (boundaries splits50).flatMap (regionChoiceSpec oldC1 newC1)) :=
  ⟨by decide, c1_best_split_recomputation oldC1 newC1 splits50 (by decide)⟩

/-- Membership in a region filter, unpacked. -/
theorem mem_frames_in_region (l : List Frame) (s e : Rat) (f : Frame) :
    f ∈ frames_in_region l s e ↔
      f ∈ l ∧ ∃ rp, f.race_completion_pct = some rp ∧ s ≤ rp ∧ rp ≤ e := by
  simp only [frames_in_region, List.mem_filter]
  constructor
  · rintro ⟨hl, hpred⟩
    refine ⟨hl, ?_⟩
    cases hrp : f.race_completion_pct with
    | none => rw [hrp] at hpred; simp at hpred
    | some rp =>
      rw [hrp] at hpred
      have hp := of_decide_eq_true hpred
      exact ⟨rp, rfl, hp.1, hp.2⟩
  · rintro ⟨hl, rp, hrp, hs, he⟩
    refine ⟨hl, ?_⟩
    rw [hrp]
    exact decide_eq_true ⟨hs, he⟩

/-- A run's progress values listed in non-decreasing order form a pairwise
ordered list. -/
theorem sortedByRpB_pairwise :
    ∀ l : List Frame, sortedByRpB l = true →
      l.Pairwise fun f g => rpv f ≤ rpv g := by
  intro l
  induction l with
  | nil => intro _; exact List.Pairwise.nil
  | cons f t ih =>
    cases t with
    | nil => intro _; exact List.pairwise_singleton _ _
    | cons g t2 =>
      intro h
      rw [sortedByRpB, Bool.and_eq_true] at h
      have hp2 := ih h.2
      refine List.pairwise_cons.mpr ⟨?_, hp2⟩
      intro x hx
      rcases List.mem_cons.mp hx with rfl | hx2
      · exact of_decide_eq_true h.1
      · exact le_trans (of_decide_eq_true h.1) ((List.pairwise_cons.mp hp2).1 x hx2)

/-- Splitting a progress-sorted list at a value no entry attains. -/
theorem filter_lt_append_filter_gt (c : Rat) :
    ∀ l : List Frame, l.Pairwise (fun f g => rpv f ≤ rpv g) →
    (∀ f ∈ l, rpv f ≠ c) →
    l.filter (fun f => decide (rpv f < c)) ++
      l.filter (fun f => decide (c < rpv f)) = l := by
  intro l
  induction l with
  | nil => intro _ _; rfl
  | cons f t ih =>
    intro hp hne
    have hhead := (List.pairwise_cons.mp hp).1
    by_cases hf : rpv f < c
    · rw [List.filter_cons, List.filter_cons, if_pos (decide_eq_true hf),
        if_neg (by simp only [decide_eq_true_eq]; exact lt_asymm hf),
        List.cons_append,
        ih (List.pairwise_cons.mp hp).2 fun g hg => hne g (List.mem_cons_of_mem _ hg)]
    · have hgt : c < rpv f :=
        lt_of_le_of_ne (not_lt.mp hf) (Ne.symm (hne f (List.mem_cons_self _ _)))
      have h1 : List.filter (fun g => decide (rpv g < c)) (f :: t) = [] := by
        rw [List.filter_cons, if_neg (by simp only [decide_eq_true_eq]; exact hf)]
        apply List.filter_eq_nil_iff.mpr
        intro g hg
        simp only [decide_eq_true_eq]
        exact not_lt.mpr (le_trans (le_of_lt hgt) (hhead g hg))
      have h2 : List.filter (fun g => decide (c < rpv g)) (f :: t) = f :: t := by
        rw [List.filter_cons, if_pos (decide_eq_true hgt)]
        apply congrArg (List.cons f)
        apply List.filter_eq_self.mpr
        intro g hg
        exact decide_eq_true (lt_of_lt_of_le hgt (hhead g hg))
      rw [h1, h2, List.nil_append]

/-- Every region emitted after running start `prev` starts at or after
`prev`. -/
theorem buildBoundaries_start_ge (ss : List Split) :
    ∀ prev : Rat,
    (∀ sp ∈ ss, prev ≤ sp.race_completion) →
    ss.Pairwise (fun a b => a.race_completion ≤ b.race_completion) →
    ∀ b ∈ buildBoundaries prev ss, prev ≤ b.1 := by
  induction ss with
  | nil =>
    intro prev _ _ b hb
    simp only [buildBoundaries, List.mem_singleton] at hb
    rw [hb]
  | cons sp rest ih =>
    intro prev hss hpair b hb
    rw [buildBoundaries] at hb
    rcases List.mem_cons.mp hb with rfl | hb2
    · exact le_rfl
    · have hrest : ∀ r ∈ rest, sp.race_completion ≤ r.race_completion :=
        (List.pairwise_cons.mp hpair).1
      have := ih sp.race_completion hrest (List.pairwise_cons.mp hpair).2 b hb2
      exact le_trans (hss sp (List.mem_cons_self _ _)) this

/-- Regions whose start is at least `c` see the same frames whether or not
entries at progress at most `c` were filtered away (given no entry sits at
`c` exactly). -/
theorem frames_in_region_filter_gt (l : List Frame) (c s e : Rat) (hcs : c ≤ s)
    (hl : ∀ f ∈ l, ∃ rp, f.race_completion_pct = some rp ∧ rp ≠ c) :
    frames_in_region (l.filter fun f => decide (c < rpv f)) s e =
      frames_in_region l s e := by
  unfold frames_in_region
  rw [List.filter_filter]
  apply List.filter_congr
  intro f hf
  obtain ⟨rp, hrp, hne⟩ := hl f hf
  by_cases hin : s ≤ rp ∧ rp ≤ e
  · have hc : c < rp := lt_of_le_of_ne (le_trans hcs hin.1) (Ne.symm hne)
    simp [hrp, rpv, hin, hc]
  · simp [hrp, rpv, hin]

/-- Partition property of the region chain: filtering a progress-sorted list
(whose entries avoid every split boundary and stay within the chain's range)
through the successive regions and concatenating reproduces the list. -/
theorem partition_aux (ss : List Split) :
    ∀ (prev : Rat) (l : List Frame),
    ss.Pairwise (fun a b => a.race_completion ≤ b.race_completion) →
    (∀ sp ∈ ss, prev ≤ sp.race_completion ∧ sp.race_completion ≤ 100) →
    (∀ f ∈ l, ∃ rp, f.race_completion_pct = some rp ∧ prev ≤ rp ∧ rp ≤ 100 ∧
      ∀ sp ∈ ss, rp ≠ sp.race_completion) →
    l.Pairwise (fun f g => rpv f ≤ rpv g) →
    (buildBoundaries prev ss).flatMap
      (fun b => frames_in_region l b.1 b.2.1) = l := by
  induction ss with
  | nil =>
    intro prev l _ _ hl _
    show frames_in_region l prev 100 ++ [] = l
    rw [List.append_nil]
    unfold frames_in_region
    apply List.filter_eq_self.mpr
    intro f hf
    obtain ⟨rp, hrp, h1, h2, _⟩ := hl f hf
    rw [hrp]
    exact decide_eq_true ⟨h1, h2⟩
  | cons sp rest ih =>
    intro prev l hpair hbound hl hsort
    have hpairrest := (List.pairwise_cons.mp hpair).2
    have hheadrest := (List.pairwise_cons.mp hpair).1
    rw [buildBoundaries, List.flatMap_cons]
    have hA : frames_in_region l prev sp.race_completion =
        l.filter fun f => decide (rpv f < sp.race_completion) := by
      unfold frames_in_region
      apply List.filter_congr
      intro f hf
      obtain ⟨rp, hrp, hprev, _, hne⟩ := hl f hf
      have hnec := hne sp (List.mem_cons_self _ _)
      rw [hrp]
      simp only [rpv, hrp, Option.getD_some]
      apply decide_eq_decide.mpr
      exact ⟨fun hh => lt_of_le_of_ne hh.2 hnec, fun hh => ⟨hprev, le_of_lt hh⟩⟩
    have hB : ∀ b ∈ buildBoundaries sp.race_completion rest,
        frames_in_region l b.1 b.2.1 =
          frames_in_region (l.filter fun f => decide (sp.race_completion < rpv f))
            b.1 b.2.1 := by
      intro b hb
      have hbs : sp.race_completion ≤ b.1 :=
        buildBoundaries_start_ge rest sp.race_completion hheadrest hpairrest b hb
      exact (frames_in_region_filter_gt l sp.race_completion b.1 b.2.1 hbs
        fun f hf => by
          obtain ⟨rp, hrp, _, _, hne⟩ := hl f hf
          exact ⟨rp, hrp, hne sp (List.mem_cons_self _ _)⟩).symm
    have hC : (buildBoundaries sp.race_completion rest).flatMap
        (fun b => frames_in_region
          (l.filter fun f => decide (sp.race_completion < rpv f)) b.1 b.2.1) =
        l.filter fun f => decide (sp.race_completion < rpv f) := by
      apply ih sp.race_completion _ hpairrest
      · intro r hr
        exact ⟨hheadrest r hr, (hbound r (List.mem_cons_of_mem _ hr)).2⟩
      · intro f hf
        have hmem := List.mem_filter.mp hf
        obtain ⟨rp, hrp, _, h100, hne⟩ := hl f hmem.1
        have hgt : sp.race_completion < rpv f := of_decide_eq_true hmem.2
        rw [rpv, hrp, Option.getD_some] at hgt
        exact ⟨rp, hrp, le_of_lt hgt, h100,
          fun r hr => hne r (List.mem_cons_of_mem _ hr)⟩
      · exact hsort.filter _
    rw [hA, flatMap_congr_mem _ _ _ hB, hC]
    apply filter_lt_append_filter_gt sp.race_completion l hsort
    intro f hf
    obtain ⟨rp, hrp, _, _, hne⟩ := hl f hf
    rw [rpv, hrp, Option.getD_some]
    exact hne sp (List.mem_cons_self _ _)

/-- Characterisation of `fasterAtB` unpacked. -/
theorem fasterAtB_eq_true (old_best new_frames : List Frame) (b : Rat × Rat × String) :
    fasterAtB old_best new_frames b = true ↔
      ∃ tn told, split_timer (frames_in_region new_frames b.1 b.2.1) b.2.1 = some tn ∧
        split_timer (frames_in_region old_best b.1 b.2.1) b.2.1 = some told ∧
        tn < told := by
  unfold fasterAtB
  rcases hn : split_timer (frames_in_region new_frames b.1 b.2.1) b.2.1 with _ | tn <;>
    rcases ho : split_timer (frames_in_region old_best b.1 b.2.1) b.2.1 with _ | told <;>
    simp [hn, ho]

/-- Characterisation of `slowerAtB` unpacked. -/
theorem slowerAtB_eq_true (old_best new_frames : List Frame) (b : Rat × Rat × String) :
    slowerAtB old_best new_frames b = true ↔
      split_timer (frames_in_region new_frames b.1 b.2.1) b.2.1 = none ∨
      ∃ tn told, split_timer (frames_in_region new_frames b.1 b.2.1) b.2.1 = some tn ∧
        split_timer (frames_in_region old_best b.1 b.2.1) b.2.1 = some told ∧
        told < tn := by
  unfold slowerAtB
  rcases hn : split_timer (frames_in_region new_frames b.1 b.2.1) b.2.1 with _ | tn <;>
    rcases ho : split_timer (frames_in_region old_best b.1 b.2.1) b.2.1 with _ | told <;>
    simp [hn, ho]

/-- Characterisation of `wellFormedEntryB` unpacked. -/
theorem wellFormedEntryB_eq_true (splits : List Split) (f : Frame) :
    wellFormedEntryB splits f = true ↔
      ∃ tv rp, f.timer_value = some tv ∧ f.race_completion_pct = some rp ∧
        0 ≤ rp ∧ rp ≤ 100 ∧ ∀ sp ∈ splits, rp ≠ sp.race_completion := by
  unfold wellFormedEntryB
  cases htv : f.timer_value <;> cases hrp : f.race_completion_pct <;>
    simp [htv, hrp, and_assoc]

/-- Claim C3 (amended): a run strictly faster at the end boundary of every
region replaces every region of best_splits with the new run's re-based
frames.  Conversely a run that beats no region (strictly slower at every
boundary, or absent) leaves the stored best_splits byte-for-byte unchanged —
provided the store is schema-conforming: every entry has a non-null timer and
a non-null progress in `[0,100]` not sitting exactly on a split boundary, the
entries are listed in non-decreasing progress order, and the configured split
percentages lie strictly between 0 and 100.  (Without the boundary proviso the
inclusive region filters duplicate boundary entries; see the
counterexample.) -/
theorem c3_monotone_improvement (old_best new_frames : List Frame)
    (splits : List Split) :
    ((boundaries splits).all (fasterAtB old_best new_frames) = true →
      compute_best_splits old_best new_frames splits =
        (boundaries splits).flatMap fun b =>
          slim (frames_in_region new_frames b.1 b.2.1)
            (-(pyOrZero (split_timer (frames_in_region new_frames b.1 b.2.1) b.1)))) ∧
    (old_best.all (wellFormedEntryB splits) = true →
     sortedByRpB old_best = true →
     splits.all (fun sp => decide (0 < sp.race_completion ∧ sp.race_completion < 100)) = true →
     (boundaries splits).all (slowerAtB old_best new_frames) = true →
      compute_best_splits old_best new_frames splits = old_best) := by
  constructor
  · intro hfast
    apply flatMap_congr_mem
    intro b hb
    obtain ⟨tn, told, hn, ho, hlt⟩ :=
      (fasterAtB_eq_true old_best new_frames b).mp (List.all_eq_true.mp hfast b hb)
    simp only [regionStep, hn, ho]
    rw [if_pos (le_of_lt hlt)]
  · intro h1 h2 h3 h4
    have hallwf : ∀ f ∈ old_best, ∃ tv rp, f.timer_value = some tv ∧
        f.race_completion_pct = some rp ∧ 0 ≤ rp ∧ rp ≤ 100 ∧
        ∀ sp ∈ splits, rp ≠ sp.race_completion :=
      fun f hf => (wellFormedEntryB_eq_true splits f).mp (List.all_eq_true.mp h1 f hf)
    have holdsome : ∀ f ∈ old_best, f.timer_value.isSome = true := by
      intro f hf
      obtain ⟨tv, rp, htv, _⟩ := hallwf f hf
      rw [htv]
      rfl
    have hentry : ∀ f ∈ old_best, ∃ rp, f.race_completion_pct = some rp ∧
        0 ≤ rp ∧ rp ≤ 100 ∧ ∀ sp ∈ splits, rp ≠ sp.race_completion := by
      intro f hf
      obtain ⟨tv, rp, _, hrp, hge, hle100, hne⟩ := hallwf f hf
      exact ⟨rp, hrp, hge, hle100, hne⟩
    have hstep : ∀ b ∈ boundaries splits,
        regionStep old_best new_frames b = frames_in_region old_best b.1 b.2.1 := by
      intro b hb
      have hslow := (slowerAtB_eq_true old_best new_frames b).mp
        (List.all_eq_true.mp h4 b hb)
      have holdr : ∀ f ∈ frames_in_region old_best b.1 b.2.1,
          f.timer_value.isSome = true :=
        fun f hf => holdsome f (List.mem_filter.mp hf).1
      rcases hslow with hn | ⟨tn, told, hn, ho, hlt⟩
      · simp only [regionStep, hn]
        exact slim_zero _ holdr
      · simp only [regionStep, hn, ho]
        rw [if_neg (not_le.mpr hlt)]
        exact slim_zero _ holdr
    show (boundaries splits).flatMap (regionStep old_best new_frames) = old_best
    rw [flatMap_congr_mem _ _ _ hstep]
    have hsortedold : old_best.Pairwise (fun f g => rpv f ≤ rpv g) :=
      sortedByRpB_pairwise old_best h2
    unfold boundaries
    cases hs : sortSplits splits with
    | nil =>
      show frames_in_region old_best 0 100 ++ [] = old_best
      rw [List.append_nil]
      unfold frames_in_region
      apply List.filter_eq_self.mpr
      intro f hf
      obtain ⟨rp, hrp, ha, hb2, _⟩ := hentry f hf
      rw [hrp]
      exact decide_eq_true ⟨ha, hb2⟩
    | cons sp rest =>
      haveI : IsTotal Split (fun a b => a.race_completion ≤ b.race_completion) :=
        ⟨fun a b => le_total _ _⟩
      haveI : IsTrans Split (fun a b => a.race_completion ≤ b.race_completion) :=
        ⟨fun a b c2 hab hbc => le_trans hab hbc⟩
      have hsorted : (sortSplits splits).Pairwise
          (fun a b => a.race_completion ≤ b.race_completion) :=
        List.sorted_insertionSort _ _
      rw [hs] at hsorted
      have hmem : ∀ x : Split, x ∈ sortSplits splits ↔ x ∈ splits :=
        fun x => (List.perm_insertionSort _ splits).mem_iff
      apply partition_aux (sp :: rest) 0 old_best hsorted
      · intro r hr
        have hrs : r ∈ splits := (hmem r).mp (by rw [hs]; exact hr)
        have hrb := of_decide_eq_true (List.all_eq_true.mp h3 r hrs)
        exact ⟨le_of_lt hrb.1, le_of_lt hrb.2⟩
      · intro f hf
        obtain ⟨rp, hrp, ha, hb2, hne⟩ := hentry f hf
        exact ⟨rp, hrp, ha, hb2,
          fun r hr => hne r ((hmem r).mp (by rw [hs]; exact hr))⟩
      · exact hsortedold

/-- Claim C3 (counterexample): a strictly slower run does NOT leave this
stored best_splits byte-for-byte unchanged — the entry at progress 50 sits
exactly on the split boundary, is included in both inclusive region filters,
and comes out duplicated. -/
theorem c3_counterexample :
    (boundaries splits50).all
      (slowerAtB [⟨some 0, some 0⟩, ⟨some 10, some 50⟩, ⟨some 20, some 100⟩]
        [⟨some 100, some 0⟩, ⟨some 200, some 50⟩, ⟨some 300, some 100⟩]) = true ∧
    compute_best_splits
      [⟨some 0, some 0⟩, ⟨some 10, some 50⟩, ⟨some 20, some 100⟩]
      [⟨some 100, some 0⟩, ⟨some 200, some 50⟩, ⟨some 300, some 100⟩]
      splits50 ≠
    [⟨some 0, some 0⟩, ⟨some 10, some 50⟩, ⟨some 20, some 100⟩] := by
  constructor
  · decide
  · decide

/-- Claim C3 (witness): the amended theorem applied to a strictly faster run
(every region replaced) and to a strictly slower run against a well-formed
store (byte-for-byte unchanged). -/
theorem c3_witness :
    ((boundaries splits50).all (fasterAtB oldFast newFast) = true ∧
     compute_best_splits oldFast newFast splits50 =
       (boundaries splits50).flatMap fun b =>
         slim (frames_in_region newFast b.1 b.2.1)
           (-(pyOrZero (split_timer (frames_in_region newFast b.1 b.2.1) b.1)))) ∧
    (oldSlow.all (wellFormedEntryB splits50) = true ∧
     sortedByRpB oldSlow = true ∧
     splits50.all (fun sp => decide (0 < sp.race_completion ∧ sp.race_completion < 100)) = true ∧
     (boundaries splits50).all (slowerAtB oldSlow newSlow) = true ∧
     compute_best_splits oldSlow newSlow splits50 = oldSlow) :=
  ⟨⟨by decide, (c3_monotone_improvement oldFast newFast splits50).1 (by decide)⟩,
   ⟨by decide, by decide, by decide, by decide,
    (c3_monotone_improvement oldSlow newSlow splits50).2
      (by decide) (by decide) (by decide) (by decide)⟩⟩

/-- Characterisation of `validEntryB` unpacked. -/
theorem validEntryB_eq_true (f : Frame) :
    validEntryB f = true ↔
      ∃ tv rp, f.timer_value = some tv ∧ f.race_completion_pct = some rp := by
  unfold validEntryB
  cases htv : f.timer_value <;> cases hrp : f.race_completion_pct <;> simp [htv, hrp]

/-- A non-empty all-valid best-splits list yields at least one valid pair. -/
theorem validPairs_ne_nil (bs : List Frame) (h : bs.all validEntryB = true)
    (hne : bs ≠ []) : validPairs bs ≠ [] := by
  cases bs with
  | nil => exact absurd rfl hne
  | cons f t =>
    obtain ⟨tv, rp, htv, hrp⟩ := (validEntryB_eq_true f).mp
      (List.all_eq_true.mp h f (List.mem_cons_self _ _))
    unfold validPairs
    rw [List.filterMap_cons]
    simp [hrp, htv]

/-- The sorted valid pairs are pairwise ordered by progress. -/
theorem sortedValid_pairwise (bs : List Frame) :
    (sortedValid bs).Pairwise fun a b => a.1 ≤ b.1 := by
  haveI : IsTotal (Rat × Int) (fun a b => a.1 ≤ b.1) := ⟨fun a b => le_total _ _⟩
  haveI : IsTrans (Rat × Int) (fun a b => a.1 ≤ b.1) :=
    ⟨fun a b c hab hbc => le_trans hab hbc⟩
  exact List.sorted_insertionSort _ _

/-- Sorting the valid pairs preserves (non-)emptiness. -/
theorem sortedValid_eq_nil_iff (bs : List Frame) :
    sortedValid bs = [] ↔ validPairs bs = [] := by
  unfold sortedValid
  constructor
  · intro h
    have hlen := congrArg List.length h
    rw [List.length_insertionSort] at hlen
    exact List.length_eq_zero.mp hlen
  · intro h
    rw [h]
    rfl

/-- Membership transfer through the stable sort. -/
theorem mem_sortedValid (bs : List Frame) (x : Rat × Int) :
    x ∈ sortedValid bs ↔ x ∈ validPairs bs :=
  (List.perm_insertionSort _ (validPairs bs)).mem_iff

/-- The head of a progress-sorted pair list is minimal. -/
theorem pairwise_head_le (l : List (Rat × Int))
    (hp : l.Pairwise fun a b => a.1 ≤ b.1) (v0 : Rat × Int)
    (h0 : l.head? = some v0) : ∀ x ∈ l, v0.1 ≤ x.1 := by
  cases l with
  | nil => simp at h0
  | cons y t =>
    rw [List.head?_cons, Option.some.injEq] at h0
    subst h0
    intro x hx
    rcases List.mem_cons.mp hx with rfl | hx2
    · exact le_rfl
    · exact (List.pairwise_cons.mp hp).1 x hx2

/-- The last element of a progress-sorted pair list is maximal. -/
theorem pairwise_le_last (l : List (Rat × Int)) :
    l.Pairwise (fun a b => a.1 ≤ b.1) → ∀ vl, l.getLast? = some vl →
    ∀ x ∈ l, x.1 ≤ vl.1 := by
  induction l with
  | nil => intro _ vl h; simp at h
  | cons y t ih =>
    intro hp vl hl x hx
    have hvlmem : vl ∈ y :: t := List.mem_of_getLast?_eq_some hl
    rcases List.mem_cons.mp hx with rfl | hx2
    · rcases List.mem_cons.mp hvlmem with h | h
      · rw [h]
      · exact (List.pairwise_cons.mp hp).1 vl h
    · cases t with
      | nil => simp at hx2
      | cons z t2 =>
        rw [List.getLast?_cons_cons] at hl
        exact ih (List.pairwise_cons.mp hp).2 vl hl x hx2

/-- The scanning loop of `interpolate_ghost_timer` on a sorted pair list whose
ends strictly bracket `p` finds an adjacent bracketing pair and interpolates
on it. -/
theorem scanPairs_found (p : Rat) :
    ∀ l : List (Rat × Int), l.Pairwise (fun a b => a.1 ≤ b.1) →
    ∀ a0 al, l.head? = some a0 → l.getLast? = some al →
    a0.1 < p → p < al.1 →
    ∃ i a b, l[i]? = some a ∧ l[i + 1]? = some b ∧ a.1 ≤ p ∧ p ≤ b.1 ∧
      scanPairs p l = some (if a.1 = b.1 then (a.2 : Rat)
        else (a.2 : Rat) + (p - a.1) / (b.1 - a.1) * ((b.2 : Rat) - (a.2 : Rat))) := by
  intro l
  induction l with
  | nil => intro _ a0 al h0 _ _ _; simp at h0
  | cons x t ih =>
    intro hp a0 al h0 hl hlt1 hlt2
    rw [List.head?_cons, Option.some.injEq] at h0
    subst h0
    cases t with
    | nil =>
      rw [List.getLast?_singleton, Option.some.injEq] at hl
      subst hl
      exact absurd hlt2 (not_lt.mpr (le_of_lt hlt1))
    | cons y t2 =>
      by_cases hc : x.1 ≤ p ∧ p ≤ y.1
      · refine ⟨0, x, y, by simp, by simp, hc.1, hc.2, ?_⟩
        simp only [scanPairs]
        rw [if_pos (decide_eq_true hc)]
        split_ifs with hxy <;> rfl
      · have hyp : y.1 < p := by
          rcases not_and_or.mp hc with h | h
          · exact absurd (le_of_lt hlt1) h
          · exact lt_of_not_le h
        rw [List.getLast?_cons_cons] at hl
        obtain ⟨i, a, b, hia, hib, hap, hpb, hscan⟩ :=
          ih (List.pairwise_cons.mp hp).2 y al rfl hl hyp hlt2
        refine ⟨i + 1, a, b, ?_, ?_, hap, hpb, ?_⟩
        · rw [List.getElem?_cons_succ]
          exact hia
        · rw [List.getElem?_cons_succ]
          exact hib
        · simp only [scanPairs]
          rw [if_neg (by simp only [decide_eq_true_eq]; exact hc)]
          exact hscan

/-- Unfolding `interpolate_ghost_timer` on an active ghost with a non-empty
valid best-splits store. -/
theorem interpolate_eq (g : GhostDoc) (p : Rat)
    (hne : g.best_splits.getD [] ≠ [])
    (hvne : validPairs (g.best_splits.getD []) ≠ [])
    (v0 vl : Rat × Int)
    (h0 : (sortedValid (g.best_splits.getD [])).head? = some v0)
    (hl : (sortedValid (g.best_splits.getD [])).getLast? = some vl) :
    interpolate_ghost_timer (some g) p =
      if p ≤ v0.1 then some ((v0.2 : Int) : Rat)
      else if vl.1 ≤ p then some ((vl.2 : Int) : Rat)
      else scanPairs p (sortedValid (g.best_splits.getD [])) := by
  simp only [interpolate_ghost_timer]
  rw [if_neg hne, if_neg hvne, h0, hl]

/-- Claim C4: for an active ghost whose best-splits entries are
schema-conforming (timer and progress both non-null), `interpolate_ghost_timer`
returns the progress-minimal entry's timer for `p` at or below it, the
progress-maximal entry's timer for `p` strictly above it, exactly a matching
entry's timer when `p` equals some entry's progress, the linear interpolation
between the two adjacent bracketing entries otherwise, and returns `None`
exactly when best_splits is empty. -/
theorem c4_interpolation (g : GhostDoc) (p : Rat)
    (hv : (g.best_splits.getD []).all validEntryB = true) :
    (interpolate_ghost_timer (some g) p = none ↔ g.best_splits.getD [] = []) ∧
    (∀ v0 ∈ (sortedValid (g.best_splits.getD [])).head?, p ≤ v0.1 →
      interpolate_ghost_timer (some g) p = some ((v0.2 : Int) : Rat)) ∧
    (∀ vl ∈ (sortedValid (g.best_splits.getD [])).getLast?, vl.1 < p →
      interpolate_ghost_timer (some g) p = some ((vl.2 : Int) : Rat)) ∧
    ((∃ e ∈ sortedValid (g.best_splits.getD []), e.1 = p) →
      ∃ e ∈ sortedValid (g.best_splits.getD []), e.1 = p ∧
        interpolate_ghost_timer (some g) p = some ((e.2 : Int) : Rat)) ∧
    ((∀ e ∈ sortedValid (g.best_splits.getD []), e.1 ≠ p) →
     (∀ v0 ∈ (sortedValid (g.best_splits.getD [])).head?, v0.1 < p) →
     (∀ vl ∈ (sortedValid (g.best_splits.getD [])).getLast?, p < vl.1) →
     g.best_splits.getD [] ≠ [] →
      ∃ i a b, (sortedValid (g.best_splits.getD []))[i]? = some a ∧
        (sortedValid (g.best_splits.getD []))[i + 1]? = some b ∧
        a.1 < p ∧ p < b.1 ∧
        interpolate_ghost_timer (some g) p =
          some ((a.2 : Rat) + (p - a.1) / (b.1 - a.1) * ((b.2 : Rat) - (a.2 : Rat)))) := by
  by_cases hbs : g.best_splits.getD [] = []
  · have hsv : sortedValid (g.best_splits.getD []) = [] := by
      rw [hbs]
      rfl
    have hnone : interpolate_ghost_timer (some g) p = none := by
      simp only [interpolate_ghost_timer]
      rw [if_pos hbs]
    refine ⟨⟨fun _ => hbs, fun _ => hnone⟩, ?_, ?_, ?_, ?_⟩
    · intro v0 hv0 _
      rw [hsv] at hv0
      simp at hv0
    · intro vl hvl _
      rw [hsv] at hvl
      simp at hvl
    · rintro ⟨e, he, _⟩
      rw [hsv] at he
      simp at he
    · intro _ _ _ hne
      exact absurd hbs hne
  · have hvne : validPairs (g.best_splits.getD []) ≠ [] :=
      validPairs_ne_nil _ hv hbs
    have hsvne : sortedValid (g.best_splits.getD []) ≠ [] :=
      fun h => hvne ((sortedValid_eq_nil_iff _).mp h)
    obtain ⟨v0, h0⟩ := Option.isSome_iff_exists.mp (List.head?_isSome.mpr hsvne)
    obtain ⟨vl, hl⟩ := Option.isSome_iff_exists.mp (List.getLast?_isSome.mpr hsvne)
    have hsorted := sortedValid_pairwise (g.best_splits.getD [])
    have hrw := interpolate_eq g p hbs hvne v0 vl h0 hl
    have hv0vl : v0.1 ≤ vl.1 :=
      pairwise_head_le _ hsorted v0 h0 vl (List.mem_of_getLast?_eq_some hl)
    refine ⟨?_, ?_, ?_, ?_, ?_⟩
    · constructor
      · intro hnone
        rw [hrw] at hnone
        by_cases h1 : p ≤ v0.1
        · rw [if_pos h1] at hnone
          exact absurd hnone (by simp)
        · rw [if_neg h1] at hnone
          by_cases h2 : vl.1 ≤ p
          · rw [if_pos h2] at hnone
            exact absurd hnone (by simp)
          · rw [if_neg h2] at hnone
            obtain ⟨i, a, b, _, _, _, _, hscan⟩ :=
              scanPairs_found p _ hsorted v0 vl h0 hl (lt_of_not_le h1)
                (lt_of_not_le h2)
            rw [hscan] at hnone
            exact absurd hnone (by simp)
      · intro h
        exact absurd h hbs
    · intro v0' hv0' hple
      rw [Option.mem_def, h0, Option.some.injEq] at hv0'
      subst hv0'
      rw [hrw, if_pos hple]
    · intro vl' hvl' hlt
      rw [Option.mem_def, hl, Option.some.injEq] at hvl'
      subst hvl'
      have hnp : ¬ p ≤ v0.1 := fun hp2 =>
        absurd hlt (not_lt.mpr (le_trans hp2 hv0vl))
      rw [hrw, if_neg hnp, if_pos (le_of_lt hlt)]
    · rintro ⟨e, he, hep⟩
      by_cases h1 : p ≤ v0.1
      · have hv0p : v0.1 = p :=
          le_antisymm (hep ▸ pairwise_head_le _ hsorted v0 h0 e he) h1
        exact ⟨v0, List.mem_of_mem_head? (Option.mem_def.mpr h0), hv0p,
          by rw [hrw, if_pos h1]⟩
      · by_cases h2 : vl.1 ≤ p
        · have hvlp : vl.1 = p :=
            le_antisymm h2 (hep ▸ pairwise_le_last _ hsorted vl hl e he)
          exact ⟨vl, List.mem_of_getLast?_eq_some hl, hvlp,
            by rw [hrw, if_neg h1, if_pos h2]⟩
        · obtain ⟨i, a, b, hia, hib, hap, hpb, hscan⟩ :=
            scanPairs_found p _ hsorted v0 vl h0 hl (lt_of_not_le h1)
              (lt_of_not_le h2)
          have hresult : interpolate_ghost_timer (some g) p =
              some (if a.1 = b.1 then (a.2 : Rat)
                else (a.2 : Rat) + (p - a.1) / (b.1 - a.1) *
                  ((b.2 : Rat) - (a.2 : Rat))) := by
            rw [hrw, if_neg h1, if_neg h2, hscan]
          have hamem : a ∈ sortedValid (g.best_splits.getD []) :=
            List.getElem?_mem hia
          have hbmem : b ∈ sortedValid (g.best_splits.getD []) :=
            List.getElem?_mem hib
          by_cases hab : a.1 = b.1
          · have hpa : a.1 = p := le_antisymm hap (hab ▸ hpb)
            refine ⟨a, hamem, hpa, ?_⟩
            rw [hresult, if_pos hab]
          · by_cases hpa : a.1 = p
            · refine ⟨a, hamem, hpa, ?_⟩
              rw [hresult, if_neg hab]
              congr 1
              have hzero : p - a.1 = 0 := by
                rw [hpa]
                exact sub_self p
              rw [hzero, zero_div, zero_mul, add_zero]
            · have hap2 : a.1 < p := lt_of_le_of_ne hap hpa
              by_cases hpb2 : b.1 = p
              · refine ⟨b, hbmem, hpb2, ?_⟩
                rw [hresult, if_neg hab]
                congr 1
                have hne2 : (b.1 : Rat) - a.1 ≠ 0 :=
                  sub_ne_zero.mpr fun h => hab h.symm
                rw [← hpb2, div_self hne2, one_mul]
                ring
              · exfalso
                have hpb3 : p < b.1 :=
                  lt_of_le_of_ne hpb fun h => hpb2 h.symm
                obtain ⟨k, hk, hek⟩ := List.getElem_of_mem he
                obtain ⟨hi, hia2⟩ := List.getElem?_eq_some_iff.mp hia
                obtain ⟨hi1, hib2⟩ := List.getElem?_eq_some_iff.mp hib
                have hmono := List.pairwise_iff_getElem.mp hsorted
                rcases lt_trichotomy k i with hki | hki | hki
                · have hle := hmono k i hk hi hki
                  rw [hek, hia2, hep] at hle
                  exact absurd hle (not_le.mpr hap2)
                · subst hki
                  have hea : e = a := hek.symm.trans hia2
                  exact hpa (hea ▸ hep)
                · rcases Nat.lt_or_ge (i + 1) k with hk2 | hk2
                  · have hle := hmono (i + 1) k hi1 hk hk2
                    rw [hib2, hek, hep] at hle
                    exact absurd hle (not_le.mpr hpb3)
                  · have hkeq : k = i + 1 :=
                      le_antisymm hk2 (Nat.succ_le_of_lt hki)
                    subst hkeq
                    have heb : e = b := hek.symm.trans hib2
                    exact hpb2 (heb ▸ hep)
    · intro hnomatch hv0lt hvllt _
      have h1 : v0.1 < p := hv0lt v0 (Option.mem_def.mpr h0)
      have h2 : p < vl.1 := hvllt vl (Option.mem_def.mpr hl)
      obtain ⟨i, a, b, hia, hib, hap, hpb, hscan⟩ :=
        scanPairs_found p _ hsorted v0 vl h0 hl h1 h2
      have hamem : a ∈ sortedValid (g.best_splits.getD []) :=
        List.getElem?_mem hia
      have hbmem : b ∈ sortedValid (g.best_splits.getD []) :=
        List.getElem?_mem hib
      have hap2 : a.1 < p := lt_of_le_of_ne hap (hnomatch a hamem)
      have hpb2 : p < b.1 :=
        lt_of_le_of_ne hpb fun h => hnomatch b hbmem h.symm
      have hab : ¬ a.1 = b.1 := ne_of_lt (lt_trans hap2 hpb2)
      refine ⟨i, a, b, hia, hib, hap2, hpb2, ?_⟩
      rw [hrw, if_neg (not_le.mpr h1), if_neg (not_le.mpr h2), hscan, if_neg hab]

/-- Claim C4 (witness): the theorem applied to a concrete two-region store at
progress 25. -/
theorem c4_witness :
    ((ghostC4.best_splits.getD []).all validEntryB = true) ∧
    ((interpolate_ghost_timer (some ghostC4) 25 = none ↔
        ghostC4.best_splits.getD [] = []) ∧
     (∀ v0 ∈ (sortedValid (ghostC4.best_splits.getD [])).head?, (25 : Rat) ≤ v0.1 →
       interpolate_ghost_timer (some ghostC4) 25 = some ((v0.2 : Int) : Rat)) ∧
     (∀ vl ∈ (sortedValid (ghostC4.best_splits.getD [])).getLast?, vl.1 < 25 →
       interpolate_ghost_timer (some ghostC4) 25 = some ((vl.2 : Int) : Rat)) ∧
     ((∃ e ∈ sortedValid (ghostC4.best_splits.getD []), e.1 = 25) →
       ∃ e ∈ sortedValid (ghostC4.best_splits.getD []), e.1 = 25 ∧
         interpolate_ghost_timer (some ghostC4) 25 = some ((e.2 : Int) : Rat)) ∧
     ((∀ e ∈ sortedValid (ghostC4.best_splits.getD []), e.1 ≠ 25) →
      (∀ v0 ∈ (sortedValid (ghostC4.best_splits.getD [])).head?, v0.1 < 25) →
      (∀ vl ∈ (sortedValid (ghostC4.best_splits.getD [])).getLast?, (25 : Rat) < vl.1) →
      ghostC4.best_splits.getD [] ≠ [] →
       ∃ i a b, (sortedValid (ghostC4.best_splits.getD []))[i]? = some a ∧
         (sortedValid (ghostC4.best_splits.getD []))[i + 1]? = some b ∧
         a.1 < 25 ∧ (25 : Rat) < b.1 ∧
         interpolate_ghost_timer (some ghostC4) 25 =
           some ((a.2 : Rat) + ((25 : Rat) - a.1) / (b.1 - a.1) *
             ((b.2 : Rat) - (a.2 : Rat))))) :=
  ⟨by decide, c4_interpolation ghostC4 25 (by decide)⟩
